import Mathlib

/-!
Verification of the Background Runner of `jupyter_utils` (file
`src/jupyter_utils/background.py`, cell magic `background`).

The runner reads the notebook's on-disk JSON, walks its cells and rebuilds
the source to re-execute, then writes it to a temporary file and spawns a
detached `python` process on it.

We embed the cell-reconstruction loop shallowly:

* a cell's `source` field is either a list of line strings or a single
  string (both occur in notebook JSON); iterating a Python string yields
  its characters as one-character strings, which `Source.pieces` mirrors;
* `startsWithP` is Python's `str.startswith` (prefix test on characters);
* `strJoin` is Python's `"".join` (concatenation with empty separator);
* `background` is the accumulation loop of `background.py` lines 27-46:
  skip non-code or empty cells; on a first line starting with `%%`,
  either strip the `%%background` line and mark termination or skip the
  whole cell; filter out lines starting with `%`; append the joined
  filtered lines plus one newline; break after the terminal cell.

The file-handling tail of the runner (lines 49-55: `NamedTemporaryFile`
context manager, `write`, `seek`, `Popen`, `sleep(0.5)`) is embedded as an
effect-trace function `runBackground`, with the document read outcome and
the spawn outcome as explicit parameters.
-/

set_option autoImplicit false

namespace JupyterUtils

/-- A cell's `source` field: either a list of line strings or one string. -/
inductive Source where
  | lines (ls : List String)
  | str (s : String)
deriving DecidableEq

/-- Python truthiness test `not cell["source"]`: an empty list or an empty
string is falsy. -/
def Source.isEmptySrc : Source → Bool
  | .lines ls => ls.isEmpty
  | .str s => s.data.isEmpty

/-- Python indexing `cell["source"][0]`: the head line of a list, or the
first character of a string (as a one-character string). -/
def Source.firstElem : Source → String
  | .lines ls => ls.headD ""
  | .str s => String.mk (s.data.take 1)

/-- Python slicing `cell["source"][1:]`. -/
def Source.dropFirst : Source → Source
  | .lines ls => .lines (ls.drop 1)
  | .str s => .str (String.mk (s.data.drop 1))

/-- The items produced by Python iteration over `cell["source"]`: the lines
of a list, or the characters of a string as one-character strings. -/
def Source.pieces : Source → List String
  | .lines ls => ls
  | .str s => s.data.map (fun c => String.mk [c])

/-- Python's `s.startswith(pre)`. -/
def startsWithP (s pre : String) : Bool :=
  pre.data.isPrefixOf s.data

/-- Python's `"".join(pieces)`: concatenation with the empty separator. -/
def strJoin : List String → String
  | [] => ""
  | s :: rest => s ++ strJoin rest

/-- `"".join([line for line in src if not line.startswith("%")])`:
the joined pieces of a source, keeping only those not starting with `%`. -/
def filteredJoin (src : Source) : String :=
  strJoin (src.pieces.filter (fun l => !(startsWithP l "%")))

/-- One cell of the notebook document: its `cell_type` and `source`. -/
structure Cell where
  cell_type : String
  source : Source
deriving DecidableEq

/-- The accumulation loop of `background.py` lines 27-46.  A cell that is
not code or has an empty source is skipped.  If the first element of the
source starts with `%%`: when it also starts with `%%background` the first
element is dropped, the filtered remainder is appended and the loop stops
(`terminate = True` then `break`); otherwise the whole cell is skipped.
Any other cell contributes its filtered join plus one newline. -/
def background : List Cell → String
  | [] => ""
  | c :: rest =>
    if c.cell_type != "code" || c.source.isEmptySrc then
      background rest
    else if startsWithP c.source.firstElem "%%" then
      if startsWithP c.source.firstElem "%%background" then
        filteredJoin c.source.dropFirst ++ "\n"
      else
        background rest
    else
      filteredJoin c.source ++ "\n" ++ background rest

/-- A cell the loop does not skip outright: code with nonempty source. -/
def eligible (c : Cell) : Bool :=
  c.cell_type == "code" && !c.source.isEmptySrc

/-- The terminal cell: eligible, and its first source element starts with
`%%background`. -/
def isTerminalCell (c : Cell) : Bool :=
  eligible c && startsWithP c.source.firstElem "%%background"

/-- A cell carrying some other cell-level directive: eligible, first
element starts with `%%` but not with `%%background`; skipped entirely. -/
def isOtherMagic (c : Cell) : Bool :=
  eligible c && startsWithP c.source.firstElem "%%"
    && !startsWithP c.source.firstElem "%%background"

/-- A single included cell's contribution to the reconstructed source:
the filtered join of its source (minus the directive line for the terminal
cell) followed by one newline. -/
def cellContribution (c : Cell) : String :=
  if isTerminalCell c then filteredJoin c.source.dropFirst ++ "\n"
  else filteredJoin c.source ++ "\n"

/-- The cells the loop iterates over before stopping: everything up to and
including the first terminal cell (or the whole list when none exists). -/
def upToTerminal : List Cell → List Cell
  | [] => []
  | c :: rest => if isTerminalCell c then [c] else c :: upToTerminal rest

/-- The cells actually included in the reconstructed source. -/
def includedCells (cells : List Cell) : List Cell :=
  (upToTerminal cells).filter (fun c => eligible c && !isOtherMagic c)

/-- The per-cell contribution that claim C1 describes: the filtered source
lines concatenated with one newline appended per line.  This follows the
claim's words, for comparison with `cellContribution`, which follows the
code. -/
def claimLineJoin (src : Source) : String :=
  strJoin ((src.pieces.filter (fun l => !(startsWithP l "%"))).map
    (fun l => l ++ "\n"))

/-- The claim-side contribution of one included cell: `claimLineJoin` of
its source, minus the directive line for the terminal cell. -/
def claimCellContribution (c : Cell) : String :=
  if isTerminalCell c then claimLineJoin c.source.dropFirst
  else claimLineJoin c.source

/-- The whole-document reconstruction claim C1 describes: the claim-side
contributions of the included cells, concatenated. -/
def claimReconstruct (cells : List Cell) : String :=
  strJoin ((includedCells cells).map claimCellContribution)

/-- The fixture document of the spec's worked example: cells
`["import os", ""]`, `["%%background"]`, `["x = 1"]`. -/
def exampleDoc : List Cell :=
  [⟨"code", .lines ["import os", ""]⟩,
   ⟨"code", .lines ["%%background"]⟩,
   ⟨"code", .lines ["x = 1"]⟩]

lemma str_append_empty (s : String) : s ++ "" = s := by
  cases s with
  | mk l => show String.mk (l ++ []) = String.mk l
            rw [List.append_nil]

lemma bg_imp_pp {s : String} (h : startsWithP s "%%background" = true) :
    startsWithP s "%%" = true := by
  unfold startsWithP at h ⊢
  rw [List.isPrefixOf_iff_prefix] at h ⊢
  exact List.IsPrefix.trans (by decide) h

lemma skip_cond (c : Cell) :
    (c.cell_type != "code" || c.source.isEmptySrc) = !eligible c := by
  unfold eligible
  cases hct : (c.cell_type == "code") <;> cases hs : c.source.isEmptySrc <;>
    simp [bne, hct, hs]

/-- The loop of `background` computes the declarative reconstruction: the
concatenation, over the included cells, of each cell's contribution. -/
lemma background_eq_spec (cells : List Cell) :
    background cells = strJoin ((includedCells cells).map cellContribution) := by
  induction cells with
  | nil => rfl
  | cons c rest ih =>
    unfold background includedCells upToTerminal
    cases ht : isTerminalCell c
    · cases he : eligible c
      · have hskip : (c.cell_type != "code" || c.source.isEmptySrc) = true := by
          rw [skip_cond, he]; rfl
        rw [hskip]
        simp only [if_true, ht, he]
        simpa [List.filter, he] using ih
      · have hskip : (c.cell_type != "code" || c.source.isEmptySrc) = false := by
          rw [skip_cond, he]; rfl
        rw [hskip]
        cases hpp : startsWithP c.source.firstElem "%%"
        · have hbg : startsWithP c.source.firstElem "%%background" = false := by
            cases hb : startsWithP c.source.firstElem "%%background"
            · rfl
            · have := bg_imp_pp hb
              rw [hpp] at this
              exact Bool.noConfusion this
          have hmag : isOtherMagic c = false := by
            unfold isOtherMagic
            rw [hpp]
            simp
          simp only [hpp, ht, Bool.false_eq_true, if_false, List.filter,
            he, hmag, Bool.not_false, Bool.and_true, List.map,
            strJoin, cellContribution]
          rw [ih]
          simp [String.append_assoc, includedCells]
        · have hbg : startsWithP c.source.firstElem "%%background" = false := by
            have := ht
            unfold isTerminalCell at this
            rw [he] at this
            simpa using this
          have hmag : isOtherMagic c = true := by
            unfold isOtherMagic
            rw [he, hpp, hbg]
            rfl
          simp only [hpp, hbg, ht, if_true, Bool.false_eq_true, if_false]
          simpa [List.filter, he, hmag] using ih
    · have he : eligible c = true := by
        have := ht
        unfold isTerminalCell at this
        exact (Bool.and_eq_true _ _).mp this |>.1
      have hbg : startsWithP c.source.firstElem "%%background" = true := by
        have := ht
        unfold isTerminalCell at this
        exact (Bool.and_eq_true _ _).mp this |>.2
      have hskip : (c.cell_type != "code" || c.source.isEmptySrc) = false := by
        rw [skip_cond, he]; rfl
      have hpp := bg_imp_pp hbg
      have hmag : isOtherMagic c = false := by
        unfold isOtherMagic
        rw [hbg]
        simp
      rw [hskip]
      simp only [hpp, hbg, if_true, Bool.false_eq_true, if_false, ht,
        List.filter, he, hmag, Bool.not_false, Bool.and_true, List.map,
        strJoin, cellContribution]
      rw [str_append_empty]

lemma str_append_assoc (a b c : String) : a ++ b ++ c = a ++ (b ++ c) := by
  cases a with
  | mk la =>
    cases b with
    | mk lb =>
      cases c with
      | mk lc =>
        show String.mk (la ++ lb ++ lc) = String.mk (la ++ (lb ++ lc))
        rw [List.append_assoc]

lemma strJoin_append (a b : List String) :
    strJoin (a ++ b) = strJoin a ++ strJoin b := by
  induction a with
  | nil => rfl
  | cons x a ih =>
    show x ++ strJoin (a ++ b) = x ++ strJoin a ++ strJoin b
    rw [ih, str_append_assoc]

lemma upToTerminal_of_no_terminal {l : List Cell}
    (h : ∀ c ∈ l, isTerminalCell c = false) : upToTerminal l = l := by
  induction l with
  | nil => rfl
  | cons c rest ih =>
    unfold upToTerminal
    rw [h c (List.mem_cons_self c rest)]
    simp only [Bool.false_eq_true, if_false]
    rw [ih fun x hx => h x (List.mem_cons_of_mem c hx)]

lemma upToTerminal_append {pre : List Cell} {ck : Cell} (post : List Cell)
    (hpre : ∀ c ∈ pre, isTerminalCell c = false)
    (hk : isTerminalCell ck = true) :
    upToTerminal (pre ++ ck :: post) = pre ++ [ck] := by
  induction pre with
  | nil =>
    show upToTerminal (ck :: post) = [ck]
    unfold upToTerminal
    rw [hk]
    simp
  | cons c pre ih =>
    show upToTerminal (c :: (pre ++ ck :: post)) = c :: (pre ++ [ck])
    unfold upToTerminal
    rw [hpre c (List.mem_cons_self c pre)]
    simp only [Bool.false_eq_true, if_false]
    rw [ih fun x hx => hpre x (List.mem_cons_of_mem c hx)]

/-- C1 (counterexample): for the one-cell document whose code cell has the
two source lines `"a"` and `"b"`, the accumulated string is `"ab\n"` — the
lines glued with no separator and one newline for the whole cell — while
the claim's per-line-newline concatenation gives `"a\nb\n"`. -/
theorem C1_cex :
    background [⟨"code", .lines ["a", "b"]⟩] = "ab\n" ∧
    claimReconstruct [⟨"code", .lines ["a", "b"]⟩] = "a\nb\n" ∧
    background [⟨"code", .lines ["a", "b"]⟩] ≠
      claimReconstruct [⟨"code", .lines ["a", "b"]⟩] :=
  ⟨by decide, by decide, by decide⟩

/-- C1 (amended): the runner builds the reconstructed source by
concatenating each included cell's filtered source lines with no separator
and appending one newline per cell; concatenating the included cells'
contributions so formed reproduces the accumulated string byte-for-byte. -/
theorem C1_thm (cells : List Cell) :
    background cells = strJoin ((includedCells cells).map cellContribution) :=
  background_eq_spec cells

/-- C2 (counterexample): on the spec's fixture document the runner produces
`"import os\n\n"`, not `"import os\n\n\n"`: cell 1's two lines contribute
`"import os"` glued plus one cell newline, and the stripped terminal cell
contributes only its cell newline. -/
theorem C2_cex :
    background exampleDoc = "import os\n\n" ∧
    background exampleDoc ≠ "import os\n\n\n" :=
  ⟨by decide, by decide⟩

/-- C2 (amended): on the fixture document with cells
`["import os", ""]`, `["%%background"]`, `["x = 1"]`, the runner marks
cell 2 as terminal, strips its directive line (so it contributes only the
cell-separator newline), produces exactly `"import os\n\n"`, and excludes
cell 3. -/
theorem C2_thm :
    background exampleDoc = "import os\n\n" ∧
    isTerminalCell ⟨"code", .lines ["%%background"]⟩ = true ∧
    cellContribution ⟨"code", .lines ["%%background"]⟩ = "\n" ∧
    includedCells exampleDoc =
      [⟨"code", .lines ["import os", ""]⟩, ⟨"code", .lines ["%%background"]⟩] :=
  ⟨by decide, by decide, by decide, by decide⟩

lemma strJoin_singletons (l : List Char) :
    strJoin (l.map (fun c => String.mk [c])) = String.mk l := by
  induction l with
  | nil => rfl
  | cons c l ih =>
    show String.mk [c] ++ strJoin (l.map (fun c => String.mk [c])) =
      String.mk (c :: l)
    rw [ih]
    rfl

lemma beq_pct_false {a : Char} (h : a ≠ '%') : ('%' == a) = false := by
  cases hce : ('%' == a)
  · rfl
  · exact absurd (eq_of_beq hce).symm h

lemma startsWithP_pct_false {s : String} (h : s.data.head? ≠ some '%') :
    startsWithP s "%" = false := by
  unfold startsWithP
  cases hd : s.data with
  | nil => rfl
  | cons a l =>
    rw [hd] at h
    have ha : ('%' == a) = false := beq_pct_false (by simpa using h)
    show List.isPrefixOf ['%'] (a :: l) = false
    simp [List.isPrefixOf, ha]

lemma startsWithP_ppct_false {s : String} (h : s.data.head? ≠ some '%') :
    startsWithP s "%%" = false := by
  unfold startsWithP
  cases hd : s.data with
  | nil => rfl
  | cons a l =>
    rw [hd] at h
    have ha : ('%' == a) = false := beq_pct_false (by simpa using h)
    show List.isPrefixOf ['%', '%'] (a :: l) = false
    simp [List.isPrefixOf, ha]

lemma startsWithP_single_ppct_false (l : List Char) :
    startsWithP (String.mk (l.take 1)) "%%" = false := by
  unfold startsWithP
  cases l with
  | nil => rfl
  | cons a r =>
    show List.isPrefixOf ['%', '%'] [a] = false
    simp [List.isPrefixOf]

/-- Evaluation of the loop on a one-cell document whose source is a list
holding a single non-directive line. -/
lemma background_single_lines (s : String)
    (h1 : startsWithP s "%%" = false) (h2 : startsWithP s "%" = false) :
    background [⟨"code", .lines [s]⟩] = s ++ "\n" := by
  unfold background
  simp only [Source.isEmptySrc, Source.firstElem, List.headD]
  rw [h1]
  simp only [Bool.false_eq_true, if_false]
  have : filteredJoin (Source.lines [s]) = s := by
    unfold filteredJoin Source.pieces
    simp [List.filter, h2, strJoin, str_append_empty]
  simp [this, background]

/-- Evaluation of the loop on a one-cell document whose source is a single
nonempty string containing no percent character. -/
lemma background_single_str (s : String) (hne : s.data ≠ [])
    (hpct : ∀ ch ∈ s.data, ch ≠ '%') :
    background [⟨"code", .str s⟩] = s ++ "\n" := by
  unfold background
  have hemp : (Source.str s).isEmptySrc = false := by
    unfold Source.isEmptySrc
    simpa [List.isEmpty_iff] using hne
  have hpp : startsWithP (Source.str s).firstElem "%%" = false := by
    unfold Source.firstElem
    exact startsWithP_single_ppct_false s.data
  have hfil : filteredJoin (Source.str s) = s := by
    unfold filteredJoin Source.pieces
    have hkeep :
        (s.data.map (fun c => String.mk [c])).filter
          (fun l => !(startsWithP l "%")) =
        s.data.map (fun c => String.mk [c]) := by
      apply List.filter_eq_self.mpr
      intro l hl
      obtain ⟨c, hc, rfl⟩ := List.mem_map.mp hl
      have : startsWithP (String.mk [c]) "%" = false := by
        apply startsWithP_pct_false
        show ([c] : List Char).head? ≠ some '%'
        simpa using hpct c hc
      simp [this]
    rw [hkeep, strJoin_singletons]
  rw [hemp]
  simp only [Bool.or_false, hpp, Bool.false_eq_true, if_false]
  have hct : (("code" : String) != "code") = false := by decide
  simp [hct, hfil, background]

/-- C3 (counterexample): the one-line content `"x = 1 % 2"` stored as a
list yields `"x = 1 % 2\n"`, while the same content stored as a single
string yields `"x = 1  2\n"`: string sources are iterated character by
character, so the `%` character is filtered out and the contributions
differ. -/
theorem C3_cex :
    background [⟨"code", .lines ["x = 1 % 2"]⟩] = "x = 1 % 2\n" ∧
    background [⟨"code", .str "x = 1 % 2"⟩] = "x = 1  2\n" ∧
    background [⟨"code", .lines ["x = 1 % 2"]⟩] ≠
      background [⟨"code", .str "x = 1 % 2"⟩] :=
  ⟨by decide, by decide, by decide⟩

/-- C3 (amended): the runner tolerates both representations of the
`source` field without failing, but a single-string source is iterated
character by character rather than line by line; the two representations
give the same contribution for a cell whose content is a single nonempty
line containing no percent character. -/
theorem C3_thm (s : String) (hne : s.data ≠ [])
    (hpct : ∀ ch ∈ s.data, ch ≠ '%') :
    background [⟨"code", .lines [s]⟩] = background [⟨"code", .str s⟩] := by
  have hhd : s.data.head? ≠ some '%' := by
    cases hd : s.data with
    | nil => simp
    | cons a l =>
      have : a ≠ '%' := hpct a (by rw [hd]; exact List.mem_cons_self a l)
      simpa using this
  rw [background_single_lines s (startsWithP_ppct_false hhd)
    (startsWithP_pct_false hhd)]
  rw [background_single_str s hne hpct]

/-- C3 (witness) at the content `"x = 1"`. -/
theorem C3_witness :
    ("x = 1" : String).data ≠ [] ∧ (∀ ch ∈ ("x = 1" : String).data, ch ≠ '%') ∧
    background [⟨"code", .lines ["x = 1"]⟩] = background [⟨"code", .str "x = 1"⟩] :=
  ⟨by decide, by decide, C3_thm "x = 1" (by decide) (by decide)⟩

/-- C4: when cell k is the first eligible code cell whose first source
element starts with `%%background`, the reconstructed source is the
reconstruction of cells 0..k-1 followed by cell k's contribution with its
directive line removed (and the rest of cell k filtered as usual); every
cell after k contributes nothing. -/
theorem C4_thm (pre : List Cell) (ck : Cell) (post : List Cell)
    (hpre : ∀ c ∈ pre, isTerminalCell c = false)
    (hk : isTerminalCell ck = true) :
    background (pre ++ ck :: post) =
      background pre ++ (filteredJoin ck.source.dropFirst ++ "\n") := by
  have hk' := hk
  unfold isTerminalCell at hk'
  have he : eligible ck = true := ((Bool.and_eq_true _ _).mp hk').1
  have hbg : startsWithP ck.source.firstElem "%%background" = true :=
    ((Bool.and_eq_true _ _).mp hk').2
  have hmag : isOtherMagic ck = false := by
    unfold isOtherMagic
    rw [hbg]
    simp
  rw [background_eq_spec, background_eq_spec]
  unfold includedCells
  rw [upToTerminal_append post hpre hk, upToTerminal_of_no_terminal hpre]
  rw [List.filter_append, List.map_append, strJoin_append]
  congr 1
  simp [List.filter, he, hmag, strJoin, cellContribution, hk,
    str_append_empty]

/-- C4 (witness) on a three-cell document whose middle cell carries the
directive. -/
theorem C4_witness :
    (∀ c ∈ [(⟨"code", .lines ["a"]⟩ : Cell)], isTerminalCell c = false) ∧
    isTerminalCell ⟨"code", .lines ["%%background", "b"]⟩ = true ∧
    background [⟨"code", .lines ["a"]⟩, ⟨"code", .lines ["%%background", "b"]⟩,
        ⟨"code", .lines ["c"]⟩] =
      background [⟨"code", .lines ["a"]⟩] ++
        (filteredJoin (Cell.source ⟨"code", .lines ["%%background", "b"]⟩).dropFirst
          ++ "\n") :=
  ⟨by decide, by decide,
    C4_thm [⟨"code", .lines ["a"]⟩] ⟨"code", .lines ["%%background", "b"]⟩
      [⟨"code", .lines ["c"]⟩] (by decide) (by decide)⟩

lemma str_data_append (a b : String) : (a ++ b).data = a.data ++ b.data := by
  cases a
  cases b
  rfl

lemma isTerminalCell_of_otherMagic {c : Cell} (h : isOtherMagic c = true) :
    isTerminalCell c = false := by
  unfold isOtherMagic at h
  unfold isTerminalCell
  have hbg : startsWithP c.source.firstElem "%%background" = false := by
    have := ((Bool.and_eq_true _ _).mp h).2
    simpa using this
  rw [hbg]
  simp

lemma includedCells_middle_magic (pre : List Cell) (c : Cell)
    (post : List Cell) (h : isOtherMagic c = true) :
    includedCells (pre ++ c :: post) = includedCells (pre ++ post) := by
  unfold includedCells
  induction pre with
  | nil =>
    have hstep : upToTerminal (c :: post) = c :: upToTerminal post := by
      show (if isTerminalCell c = true then [c] else c :: upToTerminal post) =
        c :: upToTerminal post
      rw [isTerminalCell_of_otherMagic h]
      simp
    show List.filter _ (upToTerminal (c :: post)) =
      List.filter _ (upToTerminal post)
    rw [hstep, List.filter_cons]
    simp [h]
  | cons c' pre ih =>
    show List.filter _ (upToTerminal (c' :: (pre ++ c :: post))) =
      List.filter _ (upToTerminal (c' :: (pre ++ post)))
    unfold upToTerminal
    cases ht : isTerminalCell c'
    · simp only [Bool.false_eq_true, if_false, List.filter_cons]
      rw [ih]
    · simp only [if_true]

/-- C6: a code cell whose first source element starts with `%%` but not
with `%%background` is excluded entirely, and the cells after it are still
processed exactly as they would be in its absence. -/
theorem C6_thm (pre : List Cell) (c : Cell) (post : List Cell)
    (h : isOtherMagic c = true) :
    background (pre ++ c :: post) = background (pre ++ post) := by
  rw [background_eq_spec, background_eq_spec,
    includedCells_middle_magic pre c post h]

/-- C6 (witness) on a document whose middle cell is a `%%bash` cell. -/
theorem C6_witness :
    isOtherMagic ⟨"code", .lines ["%%bash", "ls"]⟩ = true ∧
    background [⟨"code", .lines ["a"]⟩, ⟨"code", .lines ["%%bash", "ls"]⟩,
        ⟨"code", .lines ["b"]⟩] =
      background [⟨"code", .lines ["a"]⟩, ⟨"code", .lines ["b"]⟩] :=
  ⟨by decide,
    C6_thm [⟨"code", .lines ["a"]⟩] ⟨"code", .lines ["%%bash", "ls"]⟩
      [⟨"code", .lines ["b"]⟩] (by decide)⟩

/-- C9: when no cell of the document passes the terminal test, the loop
never stops early and the runner does not fail: the reconstructed source
is the concatenation of the contributions of every eligible,
non-cell-magic code cell of the entire document. -/
theorem C9_thm (cells : List Cell)
    (h : ∀ c ∈ cells, isTerminalCell c = false) :
    background cells =
      strJoin ((cells.filter (fun c => eligible c && !isOtherMagic c)).map
        cellContribution) := by
  rw [background_eq_spec]
  unfold includedCells
  rw [upToTerminal_of_no_terminal h]

/-- C9 (witness) on a document with a markdown cell, two plain code cells
and a `%%bash` cell, none terminal. -/
theorem C9_witness :
    (∀ c ∈ [(⟨"markdown", .lines ["# t"]⟩ : Cell), ⟨"code", .lines ["a"]⟩,
        ⟨"code", .lines ["%%bash"]⟩, ⟨"code", .lines ["b"]⟩],
      isTerminalCell c = false) ∧
    background [⟨"markdown", .lines ["# t"]⟩, ⟨"code", .lines ["a"]⟩,
        ⟨"code", .lines ["%%bash"]⟩, ⟨"code", .lines ["b"]⟩] =
      strJoin ((List.filter (fun c => eligible c && !isOtherMagic c)
          [⟨"markdown", .lines ["# t"]⟩, ⟨"code", .lines ["a"]⟩,
           ⟨"code", .lines ["%%bash"]⟩, ⟨"code", .lines ["b"]⟩]).map
        cellContribution) :=
  ⟨by decide,
    C9_thm [⟨"markdown", .lines ["# t"]⟩, ⟨"code", .lines ["a"]⟩,
      ⟨"code", .lines ["%%bash"]⟩, ⟨"code", .lines ["b"]⟩] (by decide)⟩

/-- C10: the terminal test is a prefix test, not an exact match: a code
cell whose first source line is `"%%background"` followed by any suffix is
treated as the terminal cell — its first line is stripped and the loop
stops after it, however the directive name continues. -/
theorem C10_thm (suffix : String) (restLines : List String)
    (post : List Cell) :
    isTerminalCell ⟨"code", .lines (("%%background" ++ suffix) :: restLines)⟩
      = true ∧
    background
        (⟨"code", .lines (("%%background" ++ suffix) :: restLines)⟩ :: post) =
      filteredJoin (Source.lines restLines) ++ "\n" := by
  have hbg : startsWithP ("%%background" ++ suffix) "%%background" = true := by
    unfold startsWithP
    rw [List.isPrefixOf_iff_prefix, str_data_append]
    exact List.prefix_append _ _
  have hpp : startsWithP ("%%background" ++ suffix) "%%" = true :=
    bg_imp_pp hbg
  have hterm : isTerminalCell
      ⟨"code", .lines (("%%background" ++ suffix) :: restLines)⟩ = true := by
    unfold isTerminalCell eligible Source.isEmptySrc Source.firstElem
    simp [hbg]
  refine ⟨hterm, ?_⟩
  unfold background
  simp [Source.isEmptySrc, Source.firstElem, Source.dropFirst, hbg, hpp]

/-- The observable side effects of the runner, in order. -/
inductive Effect where
  | createTempFile
  | writeTemp (content : String)
  | seekTemp
  | spawnProcess
  | spawnFailed
  | sleepMs (ms : Nat)
  | deleteTempFile
deriving DecidableEq

/-- The outcome of reading the notebook document from disk: a parsed cell
list, or a failure (file missing, unreadable, or not valid JSON). -/
inductive ReadOutcome where
  | ok (cells : List Cell)
  | readFailure
deriving DecidableEq

/-- The outcome of the process launch attempt. -/
inductive SpawnOutcome where
  | ok
  | failure
deriving DecidableEq

/-- The failures the runner can surface. -/
inductive RunError where
  | documentReadError
  | launchError
deriving DecidableEq

/-- Effect-trace embedding of the runner's whole body (`background.py`
lines 22-55).  The document read comes first; a read failure propagates
before any other statement runs.  On success the accumulated source is
computed and the `with NamedTemporaryFile` block runs: create the file,
`tmp.write(code)`, `tmp.seek(0)`, then `Popen`.  When the spawn succeeds,
`sleep(0.5)` runs and the context manager deletes the file on exit; when
the spawn raises, the sleep is skipped but the context manager still
deletes the file while the error propagates. -/
def runBackground (doc : ReadOutcome) (spawn : SpawnOutcome) :
    List Effect × Except RunError Unit :=
  match doc with
  | .readFailure => ([], .error .documentReadError)
  | .ok cells =>
    let code := background cells
    match spawn with
    | .ok =>
      ([.createTempFile, .writeTemp code, .seekTemp, .spawnProcess,
        .sleepMs 500, .deleteTempFile], .ok ())
    | .failure =>
      ([.createTempFile, .writeTemp code, .seekTemp, .spawnFailed,
        .deleteTempFile], .error .launchError)

/-- C7: when the notebook document cannot be read or parsed, the runner
fails with the document-read error and performs no side effect at all: in
particular no temporary file is created and no process is spawned. -/
theorem C7_thm (spawn : SpawnOutcome) :
    (runBackground .readFailure spawn).2 = .error .documentReadError ∧
    (runBackground .readFailure spawn).1 = [] ∧
    (runBackground .readFailure spawn).1.count .createTempFile = 0 ∧
    (runBackground .readFailure spawn).1.count .spawnProcess = 0 := by
  cases spawn <;> exact ⟨rfl, rfl, rfl, rfl⟩

/-- C8: for every invocation that reaches the launch step, the trace
creates exactly one temporary file and deletes it as its final step in
both spawn outcomes; when the spawn succeeds the file is held through a
500-millisecond sleep between the launch and the deletion. -/
theorem C8_thm (cells : List Cell) :
    (runBackground (.ok cells) .ok).1 =
      [.createTempFile, .writeTemp (background cells), .seekTemp,
       .spawnProcess, .sleepMs 500, .deleteTempFile] ∧
    (runBackground (.ok cells) .failure).1 =
      [.createTempFile, .writeTemp (background cells), .seekTemp,
       .spawnFailed, .deleteTempFile] ∧
    ∀ spawn : SpawnOutcome,
      (runBackground (.ok cells) spawn).1.count .createTempFile = 1 ∧
      (runBackground (.ok cells) spawn).1.count .deleteTempFile = 1 ∧
      (runBackground (.ok cells) spawn).1.getLast? = some .deleteTempFile := by
  refine ⟨rfl, rfl, fun spawn => ?_⟩
  cases spawn <;>
    simp [runBackground, List.count_cons, List.count_nil]

/-- The lines of a character list, split at newline characters (a final
newline yields a trailing empty line, as in splitting a string on `\n`). -/
def splitLines : List Char → List (List Char)
  | [] => [[]]
  | c :: rest =>
    if c = '\n' then [] :: splitLines rest
    else (c :: (splitLines rest).headD []) :: (splitLines rest).tail

/-- Scanner for the control-prefix invariant: `scanOk atStart x` is false
exactly when some line of `x` (the first one only when `atStart` is true)
begins with `%`. -/
def scanOk : Bool → List Char → Bool
  | _, [] => true
  | atStart, c :: rest =>
    if atStart && (c == '%') then false else scanOk (c == '\n') rest

/-- Whether, after reading `x` starting in state `s`, the next character
would be at the start of a line. -/
def lineState : Bool → List Char → Bool
  | s, [] => s
  | _, c :: rest => lineState (c == '\n') rest

lemma char_beq_false {a b : Char} (h : a ≠ b) : (a == b) = false := by
  cases hce : (a == b)
  · rfl
  · exact absurd (eq_of_beq hce) h

lemma lineState_append (a b : List Char) (s : Bool) :
    lineState s (a ++ b) = lineState (lineState s a) b := by
  induction a generalizing s with
  | nil => rfl
  | cons c a ih =>
    show lineState (c == '\n') (a ++ b) = lineState (lineState (c == '\n') a) b
    exact ih _

lemma scanOk_append (a b : List Char) (s : Bool) :
    scanOk s (a ++ b) = (scanOk s a && scanOk (lineState s a) b) := by
  induction a generalizing s with
  | nil => simp [scanOk, lineState]
  | cons c a ih =>
    show (if s && (c == '%') then false else scanOk (c == '\n') (a ++ b)) =
      ((if s && (c == '%') then false else scanOk (c == '\n') a) &&
        scanOk (lineState (c == '\n') a) b)
    cases hcond : (s && (c == '%'))
    · simp [hcond, ih]
    · simp [hcond]

lemma scanOk_of_no_pct {x : List Char} (h : ∀ c ∈ x, c ≠ '%') (s : Bool) :
    scanOk s x = true := by
  induction x generalizing s with
  | nil => rfl
  | cons c x ih =>
    have hc : (c == '%') = false := char_beq_false (h c (List.mem_cons_self c x))
    show (if s && (c == '%') then false else scanOk (c == '\n') x) = true
    rw [hc]
    simp [ih fun u hu => h u (List.mem_cons_of_mem c hu)]

lemma scanOk_false_of_no_nl {x : List Char} (h : ∀ c ∈ x, c ≠ '\n') :
    scanOk false x = true := by
  induction x with
  | nil => rfl
  | cons c x ih =>
    have hc : (c == '\n') = false := char_beq_false (h c (List.mem_cons_self c x))
    show (if false && (c == '%') then false else scanOk (c == '\n') x) = true
    rw [hc]
    simp [ih fun u hu => h u (List.mem_cons_of_mem c hu)]

lemma scanOk_line {l : List Char} (hh : l.head? ≠ some '%')
    (hn : ∀ c ∈ l, c ≠ '\n') : scanOk true l = true := by
  cases l with
  | nil => rfl
  | cons c r =>
    have hcp : (c == '%') = false := char_beq_false (by simpa using hh)
    have hcn : (c == '\n') = false :=
      char_beq_false (hn c (List.mem_cons_self c r))
    show (if true && (c == '%') then false else scanOk (c == '\n') r) = true
    rw [hcp, hcn]
    simp [scanOk_false_of_no_nl fun u hu => hn u (List.mem_cons_of_mem c hu)]

lemma mem_strJoin_data {ls : List String} {ch : Char}
    (h : ch ∈ (strJoin ls).data) : ∃ l ∈ ls, ch ∈ l.data := by
  induction ls with
  | nil => exact absurd h (List.not_mem_nil ch)
  | cons l ls ih =>
    rw [show strJoin (l :: ls) = l ++ strJoin ls from rfl,
      str_data_append] at h
    rcases List.mem_append.mp h with h1 | h2
    · exact ⟨l, List.mem_cons_self l ls, h1⟩
    · obtain ⟨u, hu, hch⟩ := ih h2
      exact ⟨u, List.mem_cons_of_mem l hu, hch⟩

lemma scanOk_strJoin {ls : List String}
    (h : ∀ l ∈ ls, l.data.head? ≠ some '%' ∧ ∀ ch ∈ l.data, ch ≠ '\n') :
    scanOk true (strJoin ls).data = true := by
  induction ls with
  | nil => rfl
  | cons l ls ih =>
    rw [show strJoin (l :: ls) = l ++ strJoin ls from rfl, str_data_append,
      scanOk_append]
    have h1 := h l (List.mem_cons_self l ls)
    have hrest := fun x hx => h x (List.mem_cons_of_mem l hx)
    rw [scanOk_line h1.1 h1.2]
    simp only [Bool.true_and]
    cases lineState true l.data
    · apply scanOk_false_of_no_nl
      intro ch hch
      obtain ⟨u, hu, hch'⟩ := mem_strJoin_data hch
      exact (hrest u hu).2 ch hch'
    · exact ih hrest

/-- A source honouring the document data model: in list form, stored
lines are single lines, holding no embedded newline character.  A string
source is unrestricted (it is iterated character by character anyway). -/
def noNL : Source → Bool
  | .lines ls => ls.all (fun l => l.data.all (fun ch => !(ch == '\n')))
  | .str _ => true

/-- A cell honouring the document data model for its source field. -/
def noEmbeddedNL (c : Cell) : Bool :=
  noNL c.source

lemma noNL_dropFirst {src : Source} (h : noNL src = true) :
    noNL src.dropFirst = true := by
  cases src with
  | lines ls =>
    cases ls with
    | nil => exact h
    | cons l ls =>
      show noNL (.lines ls) = true
      have h' : (l :: ls).all
          (fun l => l.data.all (fun ch => !(ch == '\n'))) = true := h
      rw [List.all_cons] at h'
      exact ((Bool.and_eq_true _ _).mp h').2
  | str s => rfl

lemma noNL_lines_forall {ls : List String}
    (h : noNL (Source.lines ls) = true) :
    ∀ l ∈ ls, ∀ ch ∈ l.data, ch ≠ '\n' := by
  intro l hl ch hch heq
  unfold noNL at h
  have h1 := (List.all_eq_true.mp h) l hl
  have h2 := (List.all_eq_true.mp h1) ch hch
  rw [heq] at h2
  exact absurd h2 (by decide)

lemma startsWithP_pct_true {s : String} (h : s.data.head? = some '%') :
    startsWithP s "%" = true := by
  unfold startsWithP
  cases hd : s.data with
  | nil => rw [hd] at h; exact absurd h (by simp)
  | cons a l =>
    rw [hd] at h
    have ha : a = '%' := by simpa using h
    show List.isPrefixOf ['%'] (a :: l) = true
    rw [ha]
    simp [List.isPrefixOf]

lemma filteredJoin_scanOk (src : Source) (h : noNL src = true) :
    scanOk true (filteredJoin src).data = true := by
  cases src with
  | lines ls =>
    unfold filteredJoin Source.pieces
    apply scanOk_strJoin
    intro l hl
    have hmem := (List.mem_filter.mp hl).1
    have hkeep : startsWithP l "%" = false := by
      simpa using (List.mem_filter.mp hl).2
    constructor
    · intro hh
      rw [startsWithP_pct_true hh] at hkeep
      exact Bool.noConfusion hkeep
    · exact noNL_lines_forall h l hmem
  | str s =>
    apply scanOk_of_no_pct
    intro ch hch
    unfold filteredJoin Source.pieces at hch
    obtain ⟨u, hu, hch'⟩ := mem_strJoin_data hch
    have hmem := (List.mem_filter.mp hu).1
    have hkeep : startsWithP u "%" = false := by
      simpa using (List.mem_filter.mp hu).2
    obtain ⟨c, _, rfl⟩ := List.mem_map.mp hmem
    have hcc : ch = c := by simpa using hch'
    subst hcc
    intro hpc
    rw [hpc] at hkeep
    exact absurd hkeep (by decide)

lemma contribution_scanOk (src : Source) (h : noNL src = true) :
    scanOk true (filteredJoin src ++ "\n").data = true := by
  rw [str_data_append, scanOk_append, filteredJoin_scanOk src h]
  cases lineState true (filteredJoin src).data <;> decide

lemma contribution_lineState (src : Source) :
    lineState true (filteredJoin src ++ "\n").data = true := by
  rw [str_data_append, lineState_append]
  show lineState ('\n' == '\n') [] = true
  decide

lemma background_cons (c : Cell) (rest : List Cell) :
    background (c :: rest) =
      if (c.cell_type != "code" || c.source.isEmptySrc) = true then
        background rest
      else if startsWithP c.source.firstElem "%%" = true then
        (if startsWithP c.source.firstElem "%%background" = true then
          filteredJoin c.source.dropFirst ++ "\n"
        else background rest)
      else filteredJoin c.source ++ "\n" ++ background rest := rfl

lemma background_step_skip {c : Cell} {rest : List Cell}
    (h : (c.cell_type != "code" || c.source.isEmptySrc) = true) :
    background (c :: rest) = background rest := by
  rw [background_cons, h]
  rfl

lemma background_step_terminal {c : Cell} {rest : List Cell}
    (hskip : (c.cell_type != "code" || c.source.isEmptySrc) = false)
    (hbg : startsWithP c.source.firstElem "%%background" = true) :
    background (c :: rest) = filteredJoin c.source.dropFirst ++ "\n" := by
  rw [background_cons, hskip, bg_imp_pp hbg, hbg]
  rfl

lemma background_step_other {c : Cell} {rest : List Cell}
    (hskip : (c.cell_type != "code" || c.source.isEmptySrc) = false)
    (hpp : startsWithP c.source.firstElem "%%" = true)
    (hbg : startsWithP c.source.firstElem "%%background" = false) :
    background (c :: rest) = background rest := by
  rw [background_cons, hskip, hpp, hbg]
  rfl

lemma background_step_plain {c : Cell} {rest : List Cell}
    (hskip : (c.cell_type != "code" || c.source.isEmptySrc) = false)
    (hpp : startsWithP c.source.firstElem "%%" = false) :
    background (c :: rest) =
      filteredJoin c.source ++ "\n" ++ background rest := by
  rw [background_cons, hskip, hpp]
  rfl

/-- Every accumulated string satisfies the scanner invariant: no line of
the reconstructed source begins with `%`. -/
lemma background_scanOk (cells : List Cell)
    (h : ∀ c ∈ cells, noEmbeddedNL c = true) :
    scanOk true (background cells).data = true := by
  induction cells with
  | nil => rfl
  | cons c rest ih =>
    have hc : noNL c.source = true := h c (List.mem_cons_self c rest)
    have hrest := fun x hx => h x (List.mem_cons_of_mem c hx)
    cases hskip : (c.cell_type != "code" || c.source.isEmptySrc) with
    | true =>
      rw [background_step_skip hskip]
      exact ih hrest
    | false =>
      cases hpp : startsWithP c.source.firstElem "%%" with
      | true =>
        cases hbg : startsWithP c.source.firstElem "%%background" with
        | true =>
          rw [background_step_terminal hskip hbg]
          exact contribution_scanOk _ (noNL_dropFirst hc)
        | false =>
          rw [background_step_other hskip hpp hbg]
          exact ih hrest
      | false =>
        rw [background_step_plain hskip hpp, str_data_append, scanOk_append,
          contribution_scanOk c.source hc, contribution_lineState c.source]
        simp [ih hrest]

lemma scanOk_splitLines (x : List Char) :
    (scanOk true x = true → ∀ l ∈ splitLines x, l.head? ≠ some '%') ∧
    (scanOk false x = true →
      ∀ l ∈ (splitLines x).tail, l.head? ≠ some '%') := by
  induction x with
  | nil =>
    constructor
    · intro _ l hl
      have e : splitLines [] = [[]] := rfl
      rw [e] at hl
      have : l = [] := by simpa using hl
      rw [this]
      simp
    · intro _ l hl
      have e : splitLines [] = [[]] := rfl
      rw [e] at hl
      simp at hl
  | cons c x ih =>
    by_cases hc : c = '\n'
    · subst hc
      have e1 : ('\n' == '%') = false := by decide
      have e2 : ('\n' == '\n') = true := by decide
      have et : scanOk true ('\n' :: x) = scanOk true x := by
        show (if true && ('\n' == '%') then false
          else scanOk ('\n' == '\n') x) = scanOk true x
        rw [e1, e2]
        simp
      have ef : scanOk false ('\n' :: x) = scanOk true x := by
        show (if false && ('\n' == '%') then false
          else scanOk ('\n' == '\n') x) = scanOk true x
        rw [e2]
        simp
      have hsplit : splitLines ('\n' :: x) = [] :: splitLines x := by
        show (if '\n' = '\n' then [] :: splitLines x else _) =
          [] :: splitLines x
        simp
      constructor
      · intro hs l hl
        rw [et] at hs
        rw [hsplit] at hl
        rcases List.mem_cons.mp hl with h1 | h2
        · rw [h1]; simp
        · exact ih.1 hs l h2
      · intro hs l hl
        rw [ef] at hs
        rw [hsplit] at hl
        simp only [List.tail_cons] at hl
        exact ih.1 hs l hl
    · have hcn : (c == '\n') = false := char_beq_false hc
      have hsplit : splitLines (c :: x) =
          (c :: (splitLines x).headD []) :: (splitLines x).tail := by
        show (if c = '\n' then [] :: splitLines x
          else (c :: (splitLines x).headD []) :: (splitLines x).tail) = _
        simp [hc]
      constructor
      · intro hs l hl
        have hcp : (c == '%') = false := by
          cases hce : (c == '%')
          · rfl
          · have hfalse : scanOk true (c :: x) = false := by
              show (if true && (c == '%') then false
                else scanOk (c == '\n') x) = false
              rw [hce]
              simp
            rw [hfalse] at hs
            exact Bool.noConfusion hs
        have hs' : scanOk false x = true := by
          have e : scanOk true (c :: x) = scanOk false x := by
            show (if true && (c == '%') then false
              else scanOk (c == '\n') x) = scanOk false x
            rw [hcp, hcn]
            simp
          rw [e] at hs
          exact hs
        rw [hsplit] at hl
        rcases List.mem_cons.mp hl with h1 | h2
        · rw [h1]
          have : c ≠ '%' := fun hh => by
            rw [hh] at hcp
            exact absurd hcp (by decide)
          simpa using this
        · exact ih.2 hs' l h2
      · intro hs l hl
        have hs' : scanOk false x = true := by
          have e : scanOk false (c :: x) = scanOk false x := by
            show (if false && (c == '%') then false
              else scanOk (c == '\n') x) = scanOk false x
            rw [hcn]
            simp
          rw [e] at hs
          exact hs
        rw [hsplit] at hl
        simp only [List.tail_cons] at hl
        exact ih.2 hs' l hl

/-- C5: for every document honouring the data model (each list-form source
line is a single line with no embedded newline), no line of the
reconstructed source begins with the control prefix `%`: directive lines
inside included cells are removed wherever they occur, and the invoking
directive line itself is stripped. -/
theorem C5_thm (cells : List Cell)
    (h : ∀ c ∈ cells, noEmbeddedNL c = true) :
    ((splitLines (background cells).data).all
      (fun l => !(l.head? == some '%'))) = true := by
  have hs := background_scanOk cells h
  apply List.all_eq_true.mpr
  intro l hl
  have hne := (scanOk_splitLines (background cells).data).1 hs l hl
  simpa using hne

/-- C5 (witness) on a document with a line magic inside the first cell and
a line magic after the directive line of the terminal cell. -/
theorem C5_witness :
    (∀ c ∈ [(⟨"code", .lines ["import os", "%matplotlib inline", "x"]⟩ : Cell),
        ⟨"code", .lines ["%%background", "%time y", "z"]⟩],
      noEmbeddedNL c = true) ∧
    ((splitLines (background
        [⟨"code", .lines ["import os", "%matplotlib inline", "x"]⟩,
         ⟨"code", .lines ["%%background", "%time y", "z"]⟩]).data).all
      (fun l => !(l.head? == some '%'))) = true :=
  ⟨by decide,
    C5_thm [⟨"code", .lines ["import os", "%matplotlib inline", "x"]⟩,
      ⟨"code", .lines ["%%background", "%time y", "z"]⟩] (by decide)⟩

end JupyterUtils
